import Mathlib

/-!
Verification of the RedisCluster persistence layer of the mosca broker
(`lib/persistence/redis_cluster.js`) against its natural-language design
specification.

The JavaScript module is shallowly embedded: JS strings become `List Char`,
JS objects holding subscription maps become association lists, the shared
redis cluster becomes an explicit `Store` value threaded through each
operation, and asynchronous callback chains become pure functions that
additionally report how many times the final callback fires.  The topic
Matcher (`lib/persistence/matcher.js`) is not part of the sources under
review, so it is modelled from the specification's description of the Topic
Matcher component (add / remove / match with `+` and `#` wildcards,
idempotent add, duplicate-free match results).
-/

set_option maxHeartbeats 1000000

namespace MoscaRC

/-- JS strings are modelled as lists of characters. -/
abbrev Str := List Char

/-- JS `String.prototype.split` with a one-character separator. -/
def splitOnChar (c : Char) : Str → List Str
  | [] => [[]]
  | x :: xs =>
    match splitOnChar c xs with
    | [] => [[]]
    | h :: t => if x = c then [] :: h :: t else (x :: h) :: t

/-- Decimal rendering of a natural number, used for the JS index keys of a
boxed string (`Object.keys("abc") = ["0","1","2"]`). -/
def natToStr (n : Nat) : Str := Nat.toDigits 10 n

/-- A persisted subscription: the qos level kept in the serialized record. -/
structure Sub where
  qos : Nat
deriving DecidableEq

/-- A subscription map: JS object from topic pattern to subscription. -/
abbrev SubMap := List (Str × Sub)

/-- Values a stored subscription record can deserialize to.  Every value the
module itself writes is `JSON.stringify` of a plain object, so the stored
strings are always valid JSON; `JSON.parse` of such a string yields either a
number, a string or an object. -/
inductive JVal where
  | num (n : Int)
  | str (s : Str)
  | obj (m : SubMap)
deriving DecidableEq

/-- JS truthiness of a parsed value (`0`, `""` are falsy; objects truthy). -/
def truthy : JVal → Bool
  | .num n => decide (n ≠ 0)
  | .str s => decide (s ≠ [])
  | .obj _ => true

/-- JS `Object.keys` on a parsed value: own enumerable keys of an object,
index strings for a boxed string, nothing for a boxed number. -/
def jkeys : JVal → List Str
  | .obj m => m.map (fun e => e.1)
  | .num _ => []
  | .str s => (List.range s.length).map natToStr

/-- The idiom `JSON.parse(result) || {}`: a missing record (redis `nil`,
which `JSON.parse` turns into `null`) or a falsy parse falls back to the
empty object. -/
def jOrEmpty : Option JVal → JVal
  | none => JVal.obj []
  | some v => if truthy v then v else JVal.obj []

/-- An MQTT packet as stored and restored by the module (payload bytes are
restored with `new Buffer(...)` after `JSON.parse`, a round trip). -/
structure Packet where
  topic : Str
  payload : List Nat
  qos : Nat
  messageId : Nat
  retain : Bool
deriving DecidableEq

/-- The slice of a client session the persistence layer reads. -/
structure Client where
  id : Str
  clean : Bool
  subscriptions : SubMap
deriving DecidableEq

/-- A sync notice published on the broadcast channel:
`{ key: clientSubKey, process: uuid }`. -/
structure Notice where
  key : Str
  process : Str
deriving DecidableEq

/-! ## Topic Matcher

Modelled from the spec: `lib/persistence/matcher.js` is not among the
sources under review, so the Matcher is taken from the specification's
Topic Matcher component: `add` inserts a (pattern, subscriber) pair
idempotently, `remove` deletes the association, `match` returns every
subscriber whose pattern matches the topic under standard wildcard
semantics (`+` one level, `#` zero or more trailing levels), without
duplicates. -/

/-- The multi-level wildcard level. -/
def hashLvl : Str := ['#']

/-- The single-level wildcard level. -/
def plusLvl : Str := ['+']

/-- Wildcard matching of pattern levels against topic levels: `+` matches
exactly one level, `#` matches zero or more trailing levels. -/
def levelsMatch : List Str → List Str → Bool
  | [], [] => true
  | p :: _, [] => decide (p = hashLvl)
  | [], _ :: _ => false
  | p :: ps, t :: ts =>
    if p = hashLvl then true
    else decide (p = plusLvl ∨ p = t) && levelsMatch ps ts

/-- Pattern/topic matching on whole strings, levels separated by `/`. -/
def patMatch (pat topic : Str) : Bool :=
  levelsMatch (splitOnChar '/' pat) (splitOnChar '/' topic)

/-- A Matcher is a finite set of (pattern, subscriber) associations; the
subscriber type is a parameter because `lookupRetained` seeds a throwaway
Matcher with the boolean `true` as its subscriber value. -/
abbrev Matcher (α : Type) := List (Str × α)

/-- Matcher `add`: idempotent insertion of a (pattern, subscriber) pair. -/
def Matcher.add {α : Type} [DecidableEq α] (m : Matcher α) (pat : Str) (v : α) :
    Matcher α :=
  if (pat, v) ∈ m then m else m ++ [(pat, v)]

/-- Matcher `remove`: deletes the association, no-op when absent. -/
def Matcher.remove {α : Type} [DecidableEq α] (m : Matcher α) (pat : Str) (v : α) :
    Matcher α :=
  m.filter (fun e => decide (e ≠ (pat, v)))

/-- Matcher `match`: all subscribers whose pattern matches the topic,
duplicate-free. -/
def Matcher.matchTopic {α : Type} [DecidableEq α] (m : Matcher α) (topic : Str) :
    List α :=
  ((m.filter (fun e => patMatch e.1 topic)).map (fun e => e.2)).dedup

/-! ## The shared store

The redis cluster is modelled as three association-list tables, one per key
namespace the module uses: plain get/set/del keys for subscription records,
redis lists for offline-packet backlogs, and the single retained hash
(field-per-topic). -/

/-- Association list lookup (first binding wins, as after `alSet`). -/
def alGet {α : Type} : List (Str × α) → Str → Option α
  | [], _ => none
  | e :: rest, k => if e.1 = k then some e.2 else alGet rest k

/-- Association list delete of every binding of a key. -/
def alDel {α : Type} : List (Str × α) → Str → List (Str × α)
  | [], _ => []
  | e :: rest, k => if e.1 = k then alDel rest k else e :: alDel rest k

/-- Association list overwrite of a key. -/
def alSet {α : Type} (l : List (Str × α)) (k : Str) (v : α) : List (Str × α) :=
  (k, v) :: alDel l k

/-- The shared cluster state. -/
structure Store where
  kv : List (Str × JVal)
  lists : List (Str × List Packet)
  hash : List (Str × Packet)
deriving DecidableEq

/-- The empty store. -/
def Store.empty : Store := ⟨[], [], []⟩

/-- Contents of a redis list, newest element first (the `lpush` end). -/
def getList (st : Store) (k : Str) : List Packet :=
  (alGet st.lists k).getD []

/-- Redis `LPUSH`: prepend at the head of the list. -/
def lpush (st : Store) (k : Str) (p : Packet) : Store :=
  { st with lists := alSet st.lists k (p :: getList st k) }

/-- Key namespace of subscription records: `"\x7bpersistence:subs\x7d:"`. -/
def subsNS : Str := "\x7bpersistence:subs\x7d:".toList

/-- Key namespace of offline backlogs: `"\x7bpersistence:packets\x7d:"`. -/
def packetsNS : Str := "\x7bpersistence:packets\x7d:".toList

/-- The subscription-record key of a client: `this.subs + client.id`. -/
def subsKey (cid : Str) : Str := subsNS ++ cid

/-- The offline-backlog key of a client: `this.packets + client.id`. -/
def packetsKey (cid : Str) : Str := packetsNS ++ cid

/-- The subscriber id `newSub` derives from a stored key:
`key.split(":")[2]`. -/
def extractId (key : Str) : Str := (splitOnChar ':' key).getD 2 []

/-! ## The persistence operations

Each operation returns, besides the updated Matcher and Store, the data it
hands to its callback and a `Nat` counting how many times the final
(completion) callback fires on that path.  Store primitives are assumed to
invoke their callbacks (the redis client delivers an answer), so the counts
reflect the module's own control flow. -/

/-- Model of `storeRetained(packet, cb)`: `hset` of the serialized packet under the
retained hash, field = exact topic; `cb` fires once from `hset`. -/
def storeRetained (st : Store) (p : Packet) : Store × Nat :=
  ({ st with hash := alSet st.hash p.topic p }, 1)

/-- Whether the argument of `lookupRetained` contains a wildcard character:
`pattern.indexOf("#") >= 0 || pattern.indexOf("+") >= 0`. -/
def hasWildcard (pat : Str) : Bool :=
  pat.contains '#' || pat.contains '+'

/-- Lexicographic comparison of strings by character code, the order JS
`Array.prototype.sort()` uses on strings. -/
def strLe : Str → Str → Bool
  | [], _ => true
  | _ :: _, [] => false
  | a :: as, b :: bs =>
    if a.toNat < b.toNat then true
    else if b.toNat < a.toNat then false
    else strLe as bs

/-- Insertion step of the sort used to model `topics.sort()`. -/
def insertSorted (x : Str) : List Str → List Str
  | [] => [x]
  | y :: ys => if strLe x y then x :: y :: ys else y :: insertSorted x ys

/-- Model of `topics.sort()`: lexicographically sorted copy of the topic list. -/
def sortStrs (l : List Str) : List Str := l.foldr insertSorted []

/-- Model of `lookupRetained(pattern, done)`.  With a wildcard: `hkeys` of the
retained hash, sort, filter through a throwaway Matcher seeded with the one
pattern, fetch each surviving topic, collect the fetched packets, then
`done(err, matched)`.  Without: a single direct `hget` of the exact topic.
The middle component records whether the retained index was enumerated
(`hkeys` issued); the last counts completion callbacks. -/
def lookupRetained (st : Store) (pat : Str) : List Packet × Bool × Nat :=
  if hasWildcard pat then
    let throwaway : Matcher Bool := Matcher.add [] pat true
    let topics := (sortStrs (st.hash.map (fun e => e.1))).filter
      (fun t => decide (0 < (throwaway.matchTopic t).length))
    (topics.foldl (fun acc t =>
      match alGet st.hash t with
      | some p => acc ++ [p]
      | none => acc) [], true, 1)
  else
    ((alGet st.hash pat).elim [] (fun p => [p]), false, 1)

/-- Model of `storeSubscriptions(client, cb)`: immediate `cb()` when clean; else
filter the session's subscriptions to qos>0, add each pattern to the local
Matcher unless `match(pattern)` already contains the client id, then
(concurrently) `set` the serialized map under the client's key and publish
a sync notice; `cb` fires once when both complete. -/
def storeSubscriptions (uuid : Str) (m : Matcher Str) (st : Store) (c : Client) :
    Matcher Str × Store × List Notice × Nat :=
  if c.clean then (m, st, [], 1)
  else
    let key := subsKey c.id
    let subscriptions := c.subscriptions.filter (fun e => decide (0 < e.2.qos))
    let m1 := subscriptions.foldl (fun acc e =>
      if c.id ∈ acc.matchTopic e.1 then acc else acc.add e.1 c.id) m
    (m1, { st with kv := alSet st.kv key (JVal.obj subscriptions) },
      [⟨key, uuid⟩], 1)

/-- Model of the `_cleanClient` state change (clean sessions only): read the persisted
record, `JSON.parse(subs) || {}`, remove each of its keys from the Matcher
for this client, then delete both the subscription key and the backlog
key. -/
def cleanClientState (m : Matcher Str) (st : Store) (c : Client) :
    Matcher Str × Store :=
  let key := subsKey c.id
  let subs := jOrEmpty (alGet st.kv key)
  let m1 := (jkeys subs).foldl (fun acc p => acc.remove p c.id) m
  (m1, { st with kv := alDel st.kv key,
                 lists := alDel st.lists (packetsKey c.id) })

/-- Model of `lookupSubscriptions(client, done)`: for a clean session, client
cleanup ending in `done(err, {})`; otherwise `get` the record,
`JSON.parse(result) || {}`, remove each of its keys from the Matcher for
this client, `del` the key, and `done(err, subscriptions)`. -/
def lookupSubscriptions (m : Matcher Str) (st : Store) (c : Client) :
    Matcher Str × Store × Option JVal × Nat :=
  if c.clean then
    let r := cleanClientState m st c
    (r.1, r.2, some (JVal.obj []), 1)
  else
    let key := subsKey c.id
    let subscriptions := jOrEmpty (alGet st.kv key)
    let m1 := (jkeys subscriptions).foldl (fun acc p => acc.remove p c.id) m
    (m1, { st with kv := alDel st.kv key }, some subscriptions, 1)

/-- Model of `storeOfflinePacket(packet, done)`: `lpush` the packet onto the backlog
of every subscriber the Matcher yields for the packet's topic; `done` fires
once when all pushes complete. -/
def storeOfflinePacket (m : Matcher Str) (st : Store) (p : Packet) :
    Store × Nat :=
  ((m.matchTopic p.topic).foldl (fun s cl => lpush s (packetsKey cl) p) st, 1)

/-- The `rpop` drain loop of `streamOfflinePackets`: repeatedly pop the tail
of the list and yield it; when `rpop` yields nothing the loop ends without
any further callback. -/
def drain (l : List Packet) : List Packet :=
  if h : l = [] then []
  else l.getLast h :: drain l.dropLast
termination_by l.length
decreasing_by
  simp only [List.length_dropLast]
  exact Nat.sub_lt (List.length_pos.mpr h) Nat.one_pos

/-- Model of `streamOfflinePackets(client, cb)`: for a clean session, client cleanup
with no callback at all; otherwise drain the backlog tail-first, invoking
`cb` once per packet.  No terminal callback exists on any path, hence the
final completion count is always `0`.  Returns the updated Matcher and
Store, the packets yielded in order, and the terminal-callback count. -/
def streamOfflinePackets (m : Matcher Str) (st : Store) (c : Client) :
    Matcher Str × Store × List Packet × Nat :=
  if c.clean then
    let r := cleanClientState m st c
    (r.1, r.2, [], 0)
  else
    let k := packetsKey c.id
    (m, { st with lists := alSet st.lists k [] }, drain (getList st k), 0)

/-- Model of `close(done)`: disconnect the redis client; the client library invokes
`done` once. -/
def closeOp : Nat := 1

/-! ## Resync and sync-notice handling

`newSub(key, cb, retried)` reads the key; when the record is missing or
does not parse to an object (`!result || typeof subs !== 'object'`) it
retries exactly once after a fixed 500 ms delay and otherwise gives up
silently; a good record replays `add(pattern, key.split(":")[2])` for each
of its keys.  The store may change between the two reads, so the model
takes both snapshots `v1` (first read) and `v2` (retry read).  Returned:
the Matcher, the number of store reads performed, and the callback signal
(`some true` = `cb()` success, `none` = no callback ever fires). -/
def newSubRun (key : Str) (v1 v2 : Option JVal) (m : Matcher Str) :
    Matcher Str × Nat × Option Bool :=
  match v1 with
  | some (JVal.obj ms) =>
    (ms.foldl (fun acc e => acc.add e.1 (extractId key)) m, 1, some true)
  | _ =>
    match v2 with
    | some (JVal.obj ms) =>
      (ms.foldl (fun acc e => acc.add e.1 (extractId key)) m, 2, some true)
    | _ => (m, 2, none)

/-- The fixed retry delay of `newSub`, in milliseconds. -/
def newSubRetryDelayMs : Nat := 500

/-- The sync-message handler: parse the notice and, unless its `process`
equals this node's own uuid, run `newSub` on the named key (no callback).
Second component: number of store reads; third: callback signal. -/
def handleMessage (uuid : Str) (n : Notice) (v1 v2 : Option JVal)
    (m : Matcher Str) : Matcher Str × Nat × Option Bool :=
  if n.process = uuid then (m, 0, none)
  else newSubRun n.key v1 v2 m

/-! ## Association-list and store lemmas -/

theorem alGet_alDel_self {α : Type} (l : List (Str × α)) (k : Str) :
    alGet (alDel l k) k = none := by
  induction l with
  | nil => rfl
  | cons e rest ih =>
    by_cases h : e.1 = k
    · simpa [alDel, h] using ih
    · simpa [alDel, h, alGet] using ih

theorem alGet_alDel_ne {α : Type} (l : List (Str × α)) (k k' : Str)
    (h : k' ≠ k) : alGet (alDel l k) k' = alGet l k' := by
  induction l with
  | nil => rfl
  | cons e rest ih =>
    have h2 : ¬ k = k' := fun hh => h hh.symm
    by_cases he : e.1 = k
    · simp [alDel, he, alGet, h2, ih]
    · by_cases he' : e.1 = k'
      · simp [alDel, he, alGet, he', h]
      · simp [alDel, he, alGet, he', ih]

theorem alGet_alSet_self {α : Type} (l : List (Str × α)) (k : Str) (v : α) :
    alGet (alSet l k v) k = some v := by
  simp [alSet, alGet]

theorem alGet_alSet_ne {α : Type} (l : List (Str × α)) (k k' : Str) (v : α)
    (h : k' ≠ k) : alGet (alSet l k v) k' = alGet l k' := by
  have hk : ¬ k = k' := fun hh => h hh.symm
  simp [alSet, alGet, hk, alGet_alDel_ne l k k' h]

theorem packetsKey_inj {a b : Str} (h : packetsKey a = packetsKey b) :
    a = b := List.append_cancel_left h

theorem getList_lpush_self (st : Store) (k : Str) (p : Packet) :
    getList (lpush st k p) k = p :: getList st k := by
  simp [lpush, getList, alGet_alSet_self]

theorem getList_lpush_ne (st : Store) (k k' : Str) (p : Packet)
    (h : k' ≠ k) : getList (lpush st k p) k' = getList st k' := by
  simp [lpush, getList, alGet_alSet_ne _ _ _ _ h]

/-! ## Matcher lemmas -/

theorem levelsMatch_self (l : List Str) : levelsMatch l l = true := by
  induction l with
  | nil => rfl
  | cons x xs ih =>
    by_cases h : x = hashLvl
    · simp [levelsMatch, h]
    · simp [levelsMatch, h, ih]

theorem patMatch_self (p : Str) : patMatch p p = true :=
  levelsMatch_self _

theorem mem_matchTopic {α : Type} [DecidableEq α] (m : Matcher α) (t : Str)
    (v : α) :
    v ∈ m.matchTopic t ↔ ∃ p, (p, v) ∈ m ∧ patMatch p t = true := by
  unfold Matcher.matchTopic
  rw [List.mem_dedup]
  constructor
  · intro h
    obtain ⟨e, he, hev⟩ := List.mem_map.mp h
    obtain ⟨hmem, hpat⟩ := List.mem_filter.mp he
    exact ⟨e.1, by rwa [show (e.1, v) = e from by rw [← hev]], hpat⟩
  · rintro ⟨p, hmem, hpat⟩
    exact List.mem_map.mpr ⟨(p, v), List.mem_filter.mpr ⟨hmem, hpat⟩, rfl⟩

theorem mem_add_self {α : Type} [DecidableEq α] (m : Matcher α) (p : Str)
    (v : α) : (p, v) ∈ m.add p v := by
  unfold Matcher.add
  split
  · assumption
  · exact List.mem_append_right _ (List.mem_singleton.mpr rfl)

theorem matchTopic_mono_add {α : Type} [DecidableEq α] (m : Matcher α)
    (p : Str) (w : α) (t : Str) (v : α) (h : v ∈ m.matchTopic t) :
    v ∈ (m.add p w).matchTopic t := by
  rw [mem_matchTopic] at h ⊢
  obtain ⟨q, hq, hpat⟩ := h
  refine ⟨q, ?_, hpat⟩
  unfold Matcher.add
  split
  · exact hq
  · exact List.mem_append_left _ hq

theorem remove_subset {α : Type} [DecidableEq α] (m : Matcher α) (p : Str)
    (v : α) : m.remove p v ⊆ m :=
  fun _ hx => (List.mem_filter.mp hx).1

theorem not_mem_remove {α : Type} [DecidableEq α] (m : Matcher α) (p : Str)
    (v : α) : (p, v) ∉ m.remove p v := by
  intro h
  have := List.of_mem_filter h
  simp at this

theorem foldl_remove_subset {α : Type} [DecidableEq α] (ks : List Str)
    (m : Matcher α) (v : α) :
    ks.foldl (fun acc q => acc.remove q v) m ⊆ m := by
  induction ks generalizing m with
  | nil => exact fun _ h => h
  | cons k ks ih =>
    intro x hx
    exact remove_subset m k v (ih (m.remove k v) hx)

theorem not_mem_foldl_remove {α : Type} [DecidableEq α] (ks : List Str)
    (m : Matcher α) (p : Str) (v : α) (hp : p ∈ ks) :
    (p, v) ∉ ks.foldl (fun acc q => acc.remove q v) m := by
  induction ks generalizing m with
  | nil => cases hp
  | cons k ks ih =>
    rcases List.mem_cons.mp hp with h | h
    · subst h
      intro hmem
      exact not_mem_remove m p v
        (foldl_remove_subset ks (m.remove p v) v hmem)
    · exact ih (m.remove k v) h

/-! ## Drain and offline-backlog lemmas -/

theorem drain_eq_reverse (l : List Packet) : drain l = l.reverse := by
  induction l using List.reverseRecOn with
  | nil => simp [drain]
  | append_singleton xs x ih =>
    have hne : xs ++ [x] ≠ [] := by simp
    rw [drain, dif_neg hne, List.getLast_concat, List.dropLast_concat, ih,
      List.reverse_append]
    simp

theorem getList_foldl_lpush (ms : List Str) (st : Store) (p : Packet)
    (cid : Str) (hnd : ms.Nodup) :
    getList (ms.foldl (fun s cl => lpush s (packetsKey cl) p) st)
        (packetsKey cid) =
      if cid ∈ ms then p :: getList st (packetsKey cid)
      else getList st (packetsKey cid) := by
  induction ms generalizing st with
  | nil => simp
  | cons cl ms ih =>
    have hnd' := List.nodup_cons.mp hnd
    rw [List.foldl_cons, ih _ hnd'.2]
    by_cases hc : cid = cl
    · subst hc
      have hnot : cid ∉ ms := hnd'.1
      simp [hnot, getList_lpush_self]
    · have hkey : packetsKey cid ≠ packetsKey cl :=
        fun hh => hc (packetsKey_inj hh)
      rw [getList_lpush_ne _ _ _ _ hkey]
      simp [List.mem_cons, hc]

theorem storeOfflinePacket_getList (m : Matcher Str) (st : Store) (p : Packet)
    (cid : Str) :
    getList (storeOfflinePacket m st p).1 (packetsKey cid) =
      if cid ∈ m.matchTopic p.topic then p :: getList st (packetsKey cid)
      else getList st (packetsKey cid) := by
  unfold storeOfflinePacket
  exact getList_foldl_lpush _ st p cid (List.nodup_dedup _)

/-! ## Lemmas about the conditional Matcher add of storeSubscriptions -/

theorem condAdd_step_preserve (c : Str) (acc : Matcher Str) (e : Str × Sub)
    (t : Str) (v : Str) (h : v ∈ acc.matchTopic t) :
    v ∈ ((if c ∈ acc.matchTopic e.1 then acc
          else acc.add e.1 c).matchTopic t) := by
  split
  · exact h
  · exact matchTopic_mono_add acc e.1 c t v h

theorem condAdd_foldl_preserve (c : Str) (es : SubMap) (m : Matcher Str)
    (t : Str) (v : Str) (h : v ∈ m.matchTopic t) :
    v ∈ ((es.foldl (fun acc e =>
        if c ∈ acc.matchTopic e.1 then acc else acc.add e.1 c) m).matchTopic t) := by
  induction es generalizing m with
  | nil => exact h
  | cons e es ih =>
    exact ih _ (condAdd_step_preserve c m e t v h)

theorem condAdd_foldl_mem (c : Str) (es : SubMap) (m : Matcher Str) :
    ∀ e ∈ es, c ∈ ((es.foldl (fun acc e =>
      if c ∈ acc.matchTopic e.1 then acc else acc.add e.1 c) m).matchTopic e.1) := by
  induction es generalizing m with
  | nil => intro e he; cases he
  | cons e0 es ih =>
    intro e he
    rcases List.mem_cons.mp he with h | h
    · subst h
      rw [List.foldl_cons]
      apply condAdd_foldl_preserve
      split
      · assumption
      · exact (mem_matchTopic _ _ _).mpr
          ⟨e.1, mem_add_self m e.1 c, patMatch_self e.1⟩
    · exact ih _ e h

/-! ## splitOnChar lemmas (the key-token extraction of newSub) -/

theorem splitOnChar_ne_nil (c : Char) (l : Str) : splitOnChar c l ≠ [] := by
  cases l with
  | nil => simp [splitOnChar]
  | cons x xs =>
    rw [splitOnChar]
    cases h : splitOnChar c xs with
    | nil => simp
    | cons hh tt =>
      by_cases hx : x = c <;> simp [hx]

theorem splitOnChar_head (c : Char) (l : Str) :
    ∃ t, splitOnChar c l =
      (l.takeWhile (fun x => decide (x ≠ c))) :: t := by
  induction l with
  | nil => exact ⟨[], rfl⟩
  | cons x xs ih =>
    obtain ⟨t, ht⟩ := ih
    by_cases hx : x = c
    · subst hx
      refine ⟨(xs.takeWhile (fun y => decide (y ≠ x))) :: t, ?_⟩
      rw [splitOnChar, ht]
      simp [List.takeWhile_cons]
    · refine ⟨t, ?_⟩
      rw [splitOnChar, ht]
      simp [List.takeWhile_cons, hx]

theorem splitOnChar_append (c : Char) (a b : Str) (h : c ∉ a) :
    splitOnChar c (a ++ c :: b) = a :: splitOnChar c b := by
  induction a with
  | nil =>
    simp only [List.nil_append]
    rw [splitOnChar]
    cases hb : splitOnChar c b with
    | nil => exact absurd hb (splitOnChar_ne_nil c b)
    | cons hh tt => simp
  | cons x xs ih =>
    have hx : ¬ x = c := fun hh => h (hh ▸ List.mem_cons_self x xs)
    have hxs : c ∉ xs := fun hh => h (List.mem_cons_of_mem x hh)
    rw [List.cons_append, splitOnChar, ih hxs]
    simp [hx]

theorem extractId_subsKey (cid : Str) :
    extractId (subsKey cid) = cid.takeWhile (fun x => decide (x ≠ ':')) := by
  have hd : subsKey cid =
      "\x7bpersistence".toList ++ ':' :: ("subs\x7d".toList ++ ':' :: cid) := by
    show subsNS ++ cid = _
    have h1 : subsNS =
        "\x7bpersistence".toList ++ ':' :: ("subs\x7d".toList ++ [':']) := by
      decide
    rw [h1]
    simp [List.append_assoc]
  have hA : ':' ∉ "\x7bpersistence".toList := by decide
  have hB : ':' ∉ "subs\x7d".toList := by decide
  rw [extractId, hd, splitOnChar_append _ _ _ hA, splitOnChar_append _ _ _ hB]
  obtain ⟨t, ht⟩ := splitOnChar_head ':' cid
  rw [ht]
  rfl

theorem takeWhile_ne_of_mem (cid : Str) (h : ':' ∈ cid) :
    cid.takeWhile (fun x => decide (x ≠ ':')) ≠ cid := by
  intro heq
  have := List.takeWhile_eq_self_iff.mp heq ':' h
  simp at this

theorem takeWhile_eq_of_not_mem (cid : Str) (h : ':' ∉ cid) :
    cid.takeWhile (fun x => decide (x ≠ ':')) = cid := by
  apply List.takeWhile_eq_self_iff.mpr
  intro x hx
  simp
  exact fun hh => h (hh ▸ hx)

/-! ## Sorting lemmas for the retained-topic enumeration -/

theorem strLe_total (a b : Str) : strLe a b = true ∨ strLe b a = true := by
  induction a generalizing b with
  | nil => exact Or.inl rfl
  | cons x xs ih =>
    cases b with
    | nil => exact Or.inr rfl
    | cons y ys =>
      by_cases hxy : x.toNat < y.toNat
      · left; rw [strLe, if_pos hxy]
      · by_cases hyx : y.toNat < x.toNat
        · right; rw [strLe, if_pos hyx]
        · rcases ih ys with h | h
          · left; rw [strLe, if_neg hxy, if_neg hyx]; exact h
          · right; rw [strLe, if_neg hyx, if_neg hxy]; exact h

theorem strLe_trans (a : Str) : ∀ b c : Str,
    strLe a b = true → strLe b c = true → strLe a c = true := by
  induction a with
  | nil => intro b c _ _; rfl
  | cons x as ih =>
    intro b c hab hbc
    cases b with
    | nil => exact absurd hab (by simp [strLe])
    | cons y bs =>
      cases c with
      | nil => exact absurd hbc (by simp [strLe])
      | cons z cs =>
        rw [strLe] at hab hbc ⊢
        by_cases hxy : x.toNat < y.toNat
        · by_cases hyz : y.toNat < z.toNat
          · rw [if_pos (Nat.lt_trans hxy hyz)]
          · by_cases hzy : z.toNat < y.toNat
            · rw [if_neg hyz, if_pos hzy] at hbc; cases hbc
            · have hyzv : y.toNat = z.toNat :=
                Nat.le_antisymm (Nat.not_lt.mp hzy) (Nat.not_lt.mp hyz)
              rw [if_pos (hyzv ▸ hxy)]
        · by_cases hyx : y.toNat < x.toNat
          · rw [if_neg hxy, if_pos hyx] at hab; cases hab
          · have hxyv : x.toNat = y.toNat :=
              Nat.le_antisymm (Nat.not_lt.mp hyx) (Nat.not_lt.mp hxy)
            rw [if_neg hxy, if_neg hyx] at hab
            by_cases hyz : y.toNat < z.toNat
            · rw [if_pos (hxyv ▸ hyz)]
            · by_cases hzy : z.toNat < y.toNat
              · rw [if_neg hyz, if_pos hzy] at hbc; cases hbc
              · rw [if_neg hyz, if_neg hzy] at hbc
                have h1 : ¬ x.toNat < z.toNat := hxyv ▸ hyz
                have h2 : ¬ z.toNat < x.toNat := hxyv ▸ hzy
                rw [if_neg h1, if_neg h2]
                exact ih bs cs hab hbc

theorem mem_insertSorted (x z : Str) (l : List Str) :
    z ∈ insertSorted x l ↔ z = x ∨ z ∈ l := by
  induction l with
  | nil => simp [insertSorted]
  | cons y ys ih =>
    by_cases h : strLe x y
    · rw [insertSorted, if_pos h]
      simp [List.mem_cons]
    · rw [insertSorted, if_neg h]
      simp only [List.mem_cons, ih]
      tauto

theorem pairwise_insertSorted (x : Str) (l : List Str)
    (h : l.Pairwise (fun a b => strLe a b = true)) :
    (insertSorted x l).Pairwise (fun a b => strLe a b = true) := by
  induction l with
  | nil => simp [insertSorted]
  | cons y ys ih =>
    rcases List.pairwise_cons.mp h with ⟨hy, hys⟩
    by_cases hle : strLe x y
    · rw [insertSorted, if_pos hle]
      refine List.pairwise_cons.mpr ⟨?_, h⟩
      intro z hz
      rcases List.mem_cons.mp hz with hz | hz
      · exact hz ▸ hle
      · exact strLe_trans x y z hle (hy z hz)
    · rw [insertSorted, if_neg hle]
      refine List.pairwise_cons.mpr ⟨?_, ih hys⟩
      intro z hz
      rcases (mem_insertSorted x z ys).mp hz with hz | hz
      · subst hz
        rcases strLe_total z y with hxy | hyx
        · exact absurd hxy hle
        · exact hyx
      · exact hy z hz

theorem sortStrs_sorted (l : List Str) :
    (sortStrs l).Pairwise (fun a b => strLe a b = true) := by
  induction l with
  | nil => simp [sortStrs]
  | cons x xs ih =>
    exact pairwise_insertSorted x (sortStrs xs) ih

theorem insertSorted_perm (x : Str) (l : List Str) :
    (insertSorted x l).Perm (x :: l) := by
  induction l with
  | nil => rfl
  | cons y ys ih =>
    by_cases h : strLe x y
    · rw [insertSorted, if_pos h]
    · rw [insertSorted, if_neg h]
      exact (ih.cons y).trans (List.Perm.swap x y ys)

theorem sortStrs_perm (l : List Str) : (sortStrs l).Perm l := by
  induction l with
  | nil => rfl
  | cons x xs ih =>
    exact (insertSorted_perm x (sortStrs xs)).trans (ih.cons x)

/-! ## Fetch-accumulation lemma for lookupRetained -/

theorem foldl_fetch_eq_filterMap (h : List (Str × Packet)) (ts : List Str)
    (acc : List Packet) :
    ts.foldl (fun acc t =>
        match alGet h t with
        | some p => acc ++ [p]
        | none => acc) acc = acc ++ ts.filterMap (alGet h) := by
  induction ts generalizing acc with
  | nil => simp
  | cons t ts ih =>
    rw [List.foldl_cons]
    cases hg : alGet h t with
    | none => simp only [hg]; rw [ih]; simp [List.filterMap_cons, hg]
    | some p => simp only [hg]; rw [ih]; simp [List.filterMap_cons, hg]

theorem newSubRun_reads_pos (key : Str) (v1 v2 : Option JVal)
    (m : Matcher Str) : 1 ≤ (newSubRun key v1 v2 m).2.1 := by
  unfold newSubRun
  cases v1 with
  | none =>
    cases v2 with
    | none => exact Nat.le_of_lt Nat.one_lt_two
    | some v => cases v <;> simp
  | some v =>
    cases v with
    | num n => cases v2 with
      | none => exact Nat.le_of_lt Nat.one_lt_two
      | some w => cases w <;> simp
    | str s => cases v2 with
      | none => exact Nat.le_of_lt Nat.one_lt_two
      | some w => cases w <;> simp
    | obj ms => simp

/-! ## The claims -/

/-- Claim C8: a cross-node resync read of a subscription key that finds no
record, or a record that does not parse to the expected object structure,
is retried exactly once (two reads in total); when the retry also fails the
key is dropped silently: the Matcher is unchanged and no callback — hence
no error — is delivered. -/
theorem c8_resync_retry_once (key : Str) (v1 v2 : Option JVal)
    (m : Matcher Str)
    (h1 : ∀ ms, v1 ≠ some (JVal.obj ms)) (h2 : ∀ ms, v2 ≠ some (JVal.obj ms)) :
    newSubRun key v1 v2 m = (m, 2, none) := by
  unfold newSubRun
  cases v1 with
  | none =>
    cases v2 with
    | none => rfl
    | some v =>
      cases v with
      | num n => rfl
      | str s => rfl
      | obj ms => exact absurd rfl (h2 ms)
  | some v =>
    cases v with
    | num n =>
      cases v2 with
      | none => rfl
      | some w =>
        cases w with
        | num n2 => rfl
        | str s2 => rfl
        | obj ms => exact absurd rfl (h2 ms)
    | str s =>
      cases v2 with
      | none => rfl
      | some w =>
        cases w with
        | num n2 => rfl
        | str s2 => rfl
        | obj ms => exact absurd rfl (h2 ms)
    | obj ms => exact absurd rfl (h1 ms)

/-- Witness for C8: a key that is missing on the first read and holds a
non-object record on the retry is dropped with the Matcher untouched. -/
theorem c8_resync_retry_once_witness :
    newSubRun (subsKey ['c']) none (some (JVal.num 5)) [] = ([], 2, none) :=
  c8_resync_retry_once (subsKey ['c']) none (some (JVal.num 5)) []
    (fun ms => by simp) (fun ms => by simp)

/-- Claim C9: a SyncNotice whose origin process identity equals this node's
own identity token is ignored — no store read, Matcher unchanged, no
callback — while a notice from a different origin runs the `newSub`
re-read (at least one store read) and replays its adds. -/
theorem c9_self_notice_ignored (uuid : Str) (n : Notice) (v1 v2 : Option JVal)
    (m : Matcher Str) :
    (n.process = uuid → handleMessage uuid n v1 v2 m = (m, 0, none)) ∧
    (n.process ≠ uuid →
      handleMessage uuid n v1 v2 m = newSubRun n.key v1 v2 m ∧
      1 ≤ (newSubRun n.key v1 v2 m).2.1) := by
  constructor
  · intro h
    unfold handleMessage
    rw [if_pos h]
  · intro h
    unfold handleMessage
    rw [if_neg h]
    exact ⟨rfl, newSubRun_reads_pos n.key v1 v2 m⟩

/-- Witness for C9: an echo of this node's own write is dropped without a
read; a foreign notice triggers the re-read. -/
theorem c9_self_notice_ignored_witness :
    handleMessage "u".toList ⟨subsKey ['c'], "u".toList⟩ none none [] =
      ([], 0, none) ∧
    (handleMessage "u".toList ⟨subsKey ['c'], "w".toList⟩ none none [] =
      newSubRun (subsKey ['c']) none none [] ∧
     1 ≤ (newSubRun (subsKey ['c']) none none []).2.1) :=
  ⟨(c9_self_notice_ignored "u".toList ⟨subsKey ['c'], "u".toList⟩ none none []).1
      (by decide),
   (c9_self_notice_ignored "u".toList ⟨subsKey ['c'], "w".toList⟩ none none []).2
      (by decide)⟩

/-- Claim C10: the subscriber id `newSub` adds to the Matcher for a stored
key is `key.split(":")[2]`, i.e. the client id truncated at its first `:`;
it equals the client id exactly when the id contains no `:`, and for an id
containing `:` the Matcher entries are created under a different (strictly
truncated) subscriber id. -/
theorem c10_key_token_truncation (cid : Str) :
    extractId (subsKey cid) = cid.takeWhile (fun x => decide (x ≠ ':')) ∧
    ((':' ∉ cid → extractId (subsKey cid) = cid) ∧
     (':' ∈ cid → extractId (subsKey cid) ≠ cid)) ∧
    (∀ (ms : SubMap) (v2 : Option JVal) (m : Matcher Str),
      (newSubRun (subsKey cid) (some (JVal.obj ms)) v2 m).1 =
        ms.foldl (fun acc e => acc.add e.1 (extractId (subsKey cid))) m) := by
  refine ⟨extractId_subsKey cid, ⟨?_, ?_⟩, ?_⟩
  · intro h
    rw [extractId_subsKey]
    exact takeWhile_eq_of_not_mem cid h
  · intro h
    rw [extractId_subsKey]
    exact takeWhile_ne_of_mem cid h
  · intro ms v2 m
    rfl

/-- Witness for C10: the id `a:b` is truncated to `a` (a different id),
while `ab` survives intact. -/
theorem c10_key_token_truncation_witness :
    (':' ∈ "a:b".toList ∧ extractId (subsKey "a:b".toList) ≠ "a:b".toList) ∧
    (':' ∉ "ab".toList ∧ extractId (subsKey "ab".toList) = "ab".toList) :=
  ⟨⟨by decide, (c10_key_token_truncation "a:b".toList).2.1.2 (by decide)⟩,
   ⟨by decide, (c10_key_token_truncation "ab".toList).2.1.1 (by decide)⟩⟩

/-- Claim C3: packets P1, P2, P3 enqueued in that order by
storeOfflinePacket to topics matched by a non-clean client's patterns are
yielded by streamOfflinePackets as P1, then P2, then P3 — FIFO — after
which the callback is not invoked again (no terminal call either). -/
theorem c3_offline_fifo (m : Matcher Str) (st0 : Store) (c : Client)
    (p1 p2 p3 : Packet) (hc : c.clean = false)
    (h1 : c.id ∈ m.matchTopic p1.topic) (h2 : c.id ∈ m.matchTopic p2.topic)
    (h3 : c.id ∈ m.matchTopic p3.topic)
    (h0 : getList st0 (packetsKey c.id) = []) :
    (streamOfflinePackets m
      (storeOfflinePacket m
        (storeOfflinePacket m (storeOfflinePacket m st0 p1).1 p2).1 p3).1
      c).2.2.1 = [p1, p2, p3] ∧
    (streamOfflinePackets m
      (storeOfflinePacket m
        (storeOfflinePacket m (storeOfflinePacket m st0 p1).1 p2).1 p3).1
      c).2.2.2 = 0 := by
  have e1 : getList (storeOfflinePacket m st0 p1).1 (packetsKey c.id)
      = [p1] := by
    rw [storeOfflinePacket_getList, if_pos h1, h0]
  have e2 : getList (storeOfflinePacket m (storeOfflinePacket m st0 p1).1 p2).1
      (packetsKey c.id) = [p2, p1] := by
    rw [storeOfflinePacket_getList, if_pos h2, e1]
  have e3 : getList (storeOfflinePacket m
      (storeOfflinePacket m (storeOfflinePacket m st0 p1).1 p2).1 p3).1
      (packetsKey c.id) = [p3, p2, p1] := by
    rw [storeOfflinePacket_getList, if_pos h3, e2]
  unfold streamOfflinePackets
  rw [if_neg (by simp [hc])]
  refine ⟨?_, rfl⟩
  simp only [e3, drain_eq_reverse]
  rfl

/-- Witness for C3: three packets on a `hello/#` subscription drain in
enqueue order. -/
theorem c3_offline_fifo_witness :
    (streamOfflinePackets [("hello/#".toList, "c".toList)]
      (storeOfflinePacket [("hello/#".toList, "c".toList)]
        (storeOfflinePacket [("hello/#".toList, "c".toList)]
          (storeOfflinePacket [("hello/#".toList, "c".toList)] Store.empty
            ⟨"hello/1".toList, [1], 1, 1, false⟩).1
          ⟨"hello/2".toList, [2], 1, 2, false⟩).1
        ⟨"hello/3".toList, [3], 1, 3, false⟩).1
      ⟨"c".toList, false, []⟩).2.2.1 =
      [⟨"hello/1".toList, [1], 1, 1, false⟩,
       ⟨"hello/2".toList, [2], 1, 2, false⟩,
       ⟨"hello/3".toList, [3], 1, 3, false⟩] ∧
    (streamOfflinePackets [("hello/#".toList, "c".toList)]
      (storeOfflinePacket [("hello/#".toList, "c".toList)]
        (storeOfflinePacket [("hello/#".toList, "c".toList)]
          (storeOfflinePacket [("hello/#".toList, "c".toList)] Store.empty
            ⟨"hello/1".toList, [1], 1, 1, false⟩).1
          ⟨"hello/2".toList, [2], 1, 2, false⟩).1
        ⟨"hello/3".toList, [3], 1, 3, false⟩).1
      ⟨"c".toList, false, []⟩).2.2.2 = 0 :=
  c3_offline_fifo [("hello/#".toList, "c".toList)] Store.empty
    ⟨"c".toList, false, []⟩
    ⟨"hello/1".toList, [1], 1, 1, false⟩
    ⟨"hello/2".toList, [2], 1, 2, false⟩
    ⟨"hello/3".toList, [3], 1, 3, false⟩
    (by decide) (by decide) (by decide) (by decide) (by decide)

theorem cleanClientState_spec (m : Matcher Str) (st : Store) (c : Client)
    (ms : SubMap) (hrec : alGet st.kv (subsKey c.id) = some (JVal.obj ms)) :
    (∀ p ∈ ms.map (fun e => e.1), (p, c.id) ∉ (cleanClientState m st c).1) ∧
    alGet (cleanClientState m st c).2.kv (subsKey c.id) = none ∧
    getList (cleanClientState m st c).2 (packetsKey c.id) = [] := by
  unfold cleanClientState
  refine ⟨?_, ?_, ?_⟩
  · intro p hp
    simp only [hrec, jOrEmpty, truthy, if_pos, jkeys]
    exact not_mem_foldl_remove _ m p c.id hp
  · exact alGet_alDel_self st.kv (subsKey c.id)
  · simp [getList, alGet_alDel_self]

/-- Claim C4: for a clean session, storeSubscriptions persists nothing and
calls back success immediately, and both lookupSubscriptions and
streamOfflinePackets run client cleanup — removing each persisted pattern
from the Matcher for that client id and deleting both the subscription key
and the backlog key — while yielding an empty subscription map
(respectively no packets) to the caller. -/
theorem c4_clean_session (u : Str) (m : Matcher Str) (st : Store) (c : Client)
    (ms : SubMap) (hc : c.clean = true)
    (hrec : alGet st.kv (subsKey c.id) = some (JVal.obj ms)) :
    storeSubscriptions u m st c = (m, st, [], 1) ∧
    ((lookupSubscriptions m st c).2.2.1 = some (JVal.obj []) ∧
     (lookupSubscriptions m st c).2.2.2 = 1 ∧
     alGet (lookupSubscriptions m st c).2.1.kv (subsKey c.id) = none ∧
     getList (lookupSubscriptions m st c).2.1 (packetsKey c.id) = [] ∧
     ∀ p ∈ ms.map (fun e => e.1), (p, c.id) ∉ (lookupSubscriptions m st c).1) ∧
    ((streamOfflinePackets m st c).2.2.1 = [] ∧
     (streamOfflinePackets m st c).2.2.2 = 0 ∧
     alGet (streamOfflinePackets m st c).2.1.kv (subsKey c.id) = none ∧
     getList (streamOfflinePackets m st c).2.1 (packetsKey c.id) = [] ∧
     ∀ p ∈ ms.map (fun e => e.1), (p, c.id) ∉ (streamOfflinePackets m st c).1) := by
  obtain ⟨hm, hkv, hlist⟩ := cleanClientState_spec m st c ms hrec
  have hl : lookupSubscriptions m st c =
      ((cleanClientState m st c).1, (cleanClientState m st c).2,
        some (JVal.obj []), 1) := by
    unfold lookupSubscriptions
    rw [if_pos hc]
  have hs : streamOfflinePackets m st c =
      ((cleanClientState m st c).1, (cleanClientState m st c).2, [], 0) := by
    unfold streamOfflinePackets
    rw [if_pos hc]
  refine ⟨?_, ⟨?_, ?_, ?_, ?_, ?_⟩, ⟨?_, ?_, ?_, ?_, ?_⟩⟩
  · unfold storeSubscriptions
    rw [if_pos hc]
  · rw [hl]
  · rw [hl]
  · rw [hl]; exact hkv
  · rw [hl]; exact hlist
  · rw [hl]; exact hm
  · rw [hs]
  · rw [hs]
  · rw [hs]; exact hkv
  · rw [hs]; exact hlist
  · rw [hs]; exact hm

/-- Witness for C4: a clean client with one persisted pattern and one
backlogged packet has both wiped and gets nothing back. -/
theorem c4_clean_session_witness :
    storeSubscriptions [] [(['a'], ['c'])]
      ⟨[(subsKey ['c'], JVal.obj [(['a'], ⟨1⟩)])],
        [(packetsKey ['c'], [⟨['t'], [], 0, 0, false⟩])], []⟩
      ⟨['c'], true, []⟩ =
      ([(['a'], ['c'])],
        ⟨[(subsKey ['c'], JVal.obj [(['a'], ⟨1⟩)])],
          [(packetsKey ['c'], [⟨['t'], [], 0, 0, false⟩])], []⟩, [], 1) ∧
    (lookupSubscriptions [(['a'], ['c'])]
      ⟨[(subsKey ['c'], JVal.obj [(['a'], ⟨1⟩)])],
        [(packetsKey ['c'], [⟨['t'], [], 0, 0, false⟩])], []⟩
      ⟨['c'], true, []⟩).2.2.1 = some (JVal.obj []) ∧
    alGet (lookupSubscriptions [(['a'], ['c'])]
      ⟨[(subsKey ['c'], JVal.obj [(['a'], ⟨1⟩)])],
        [(packetsKey ['c'], [⟨['t'], [], 0, 0, false⟩])], []⟩
      ⟨['c'], true, []⟩).2.1.kv (subsKey ['c']) = none ∧
    getList (lookupSubscriptions [(['a'], ['c'])]
      ⟨[(subsKey ['c'], JVal.obj [(['a'], ⟨1⟩)])],
        [(packetsKey ['c'], [⟨['t'], [], 0, 0, false⟩])], []⟩
      ⟨['c'], true, []⟩).2.1 (packetsKey ['c']) = [] ∧
    (['a'], ['c']) ∉ (lookupSubscriptions [(['a'], ['c'])]
      ⟨[(subsKey ['c'], JVal.obj [(['a'], ⟨1⟩)])],
        [(packetsKey ['c'], [⟨['t'], [], 0, 0, false⟩])], []⟩
      ⟨['c'], true, []⟩).1 ∧
    (streamOfflinePackets [(['a'], ['c'])]
      ⟨[(subsKey ['c'], JVal.obj [(['a'], ⟨1⟩)])],
        [(packetsKey ['c'], [⟨['t'], [], 0, 0, false⟩])], []⟩
      ⟨['c'], true, []⟩).2.2.1 = [] := by
  have h := c4_clean_session [] [(['a'], ['c'])]
    ⟨[(subsKey ['c'], JVal.obj [(['a'], ⟨1⟩)])],
      [(packetsKey ['c'], [⟨['t'], [], 0, 0, false⟩])], []⟩
    ⟨['c'], true, []⟩ [(['a'], ⟨1⟩)] (by decide) (by decide)
  exact ⟨h.1, h.2.1.1, h.2.1.2.2.1, h.2.1.2.2.2.1,
    h.2.1.2.2.2.2 ['a'] (by decide), h.2.2.1⟩

theorem throwaway_matchTopic (pat t : Str) :
    decide (0 < ((Matcher.add ([] : Matcher Bool) pat true).matchTopic t).length)
      = patMatch pat t := by
  have hadd : Matcher.add ([] : Matcher Bool) pat true = [(pat, true)] := by
    unfold Matcher.add
    rw [if_neg (List.not_mem_nil _)]
    rfl
  rw [hadd]
  unfold Matcher.matchTopic
  by_cases h : patMatch pat t
  · simp [List.filter, h]
  · simp [List.filter, h]

/-- Claim C5: lookupRetained dispatches on the presence of a wildcard
character: with none it performs a single direct exact-key fetch, never
enumerating the retained index, returning an empty or one-element result;
with a wildcard it enumerates all stored topics, sorts them, filters them
through a throwaway Matcher seeded with that one pattern, fetches each
match and returns the collection of matched packets. -/
theorem c5_retained_dispatch (st : Store) (pat : Str) :
    (hasWildcard pat = false →
      lookupRetained st pat =
        ((alGet st.hash pat).elim [] (fun p => [p]), false, 1) ∧
      (lookupRetained st pat).1.length ≤ 1) ∧
    (hasWildcard pat = true →
      lookupRetained st pat =
        (((sortStrs (st.hash.map (fun e => e.1))).filter
            (fun t => patMatch pat t)).filterMap (alGet st.hash), true, 1) ∧
      (sortStrs (st.hash.map (fun e => e.1))).Pairwise
        (fun a b => strLe a b = true) ∧
      (sortStrs (st.hash.map (fun e => e.1))).Perm
        (st.hash.map (fun e => e.1))) := by
  constructor
  · intro h
    have heq : lookupRetained st pat =
        ((alGet st.hash pat).elim [] (fun p => [p]), false, 1) := by
      unfold lookupRetained
      rw [if_neg (by simp [h])]
    refine ⟨heq, ?_⟩
    rw [heq]
    cases alGet st.hash pat <;> simp
  · intro h
    have heq : lookupRetained st pat =
        (((sortStrs (st.hash.map (fun e => e.1))).filter
            (fun t => patMatch pat t)).filterMap (alGet st.hash), true, 1) := by
      unfold lookupRetained
      rw [if_pos h]
      simp only [foldl_fetch_eq_filterMap, List.nil_append,
        List.filter_congr (fun a _ => throwaway_matchTopic pat a)]
    exact ⟨heq, sortStrs_sorted _, sortStrs_perm _⟩

/-- Witness for C5: an exact lookup fetches `hello/42` directly without
enumeration; a `hello/+` lookup enumerates, sorts and filters. -/
theorem c5_retained_dispatch_witness :
    (hasWildcard "hello/42".toList = false ∧
      lookupRetained
        ⟨[], [], [("hello/42".toList, ⟨"hello/42".toList, [7], 0, 7, true⟩),
                  ("bye".toList, ⟨"bye".toList, [8], 0, 8, true⟩)]⟩
        "hello/42".toList =
        ([⟨"hello/42".toList, [7], 0, 7, true⟩], false, 1)) ∧
    (hasWildcard "hello/+".toList = true ∧
      lookupRetained
        ⟨[], [], [("hello/42".toList, ⟨"hello/42".toList, [7], 0, 7, true⟩),
                  ("bye".toList, ⟨"bye".toList, [8], 0, 8, true⟩)]⟩
        "hello/+".toList =
        ([⟨"hello/42".toList, [7], 0, 7, true⟩], true, 1)) := by
  have h1 := (c5_retained_dispatch
    ⟨[], [], [("hello/42".toList, ⟨"hello/42".toList, [7], 0, 7, true⟩),
              ("bye".toList, ⟨"bye".toList, [8], 0, 8, true⟩)]⟩
    "hello/42".toList).1 (by decide)
  have h2 := (c5_retained_dispatch
    ⟨[], [], [("hello/42".toList, ⟨"hello/42".toList, [7], 0, 7, true⟩),
              ("bye".toList, ⟨"bye".toList, [8], 0, 8, true⟩)]⟩
    "hello/+".toList).2 (by decide)
  refine ⟨⟨by decide, ?_⟩, ⟨by decide, ?_⟩⟩
  · rw [h1.1]; decide
  · rw [h2.1]; decide

/-- Claim C6 (counterexample): a persisted record that parses to the
truthy non-object value `5` is handed to the callback unchanged — not as
an empty subscription map — refuting "a malformed record yields an empty
map". -/
theorem c6_counterexample :
    (lookupSubscriptions []
      ⟨[(subsKey ['c'], JVal.num 5)], [], []⟩ ⟨['c'], false, []⟩).2.2.1 =
      some (JVal.num 5) ∧
    (lookupSubscriptions []
      ⟨[(subsKey ['c'], JVal.num 5)], [], []⟩ ⟨['c'], false, []⟩).2.2.1 ≠
      some (JVal.obj []) := by
  decide

/-- Claim C6 (amended): for a non-clean session, a missing persisted
record — or one parsing to a JS-falsy value — yields an empty subscription
map through the callback, with no error; but a record parsing to a truthy
value (object or not) is passed through to the callback unchanged. -/
theorem c6_lookup_absent_policy (m : Matcher Str) (st : Store) (c : Client)
    (hc : c.clean = false) :
    (alGet st.kv (subsKey c.id) = none →
      (lookupSubscriptions m st c).2.2.1 = some (JVal.obj []) ∧
      (lookupSubscriptions m st c).2.2.2 = 1) ∧
    (∀ v, alGet st.kv (subsKey c.id) = some v → truthy v = false →
      (lookupSubscriptions m st c).2.2.1 = some (JVal.obj []) ∧
      (lookupSubscriptions m st c).2.2.2 = 1) ∧
    (∀ v, alGet st.kv (subsKey c.id) = some v → truthy v = true →
      (lookupSubscriptions m st c).2.2.1 = some v ∧
      (lookupSubscriptions m st c).2.2.2 = 1) := by
  have hcond : ¬ (c.clean = true) := by simp [hc]
  refine ⟨?_, ?_, ?_⟩
  · intro hv
    unfold lookupSubscriptions
    rw [if_neg hcond]
    simp [hv, jOrEmpty]
  · intro v hv htr
    unfold lookupSubscriptions
    rw [if_neg hcond]
    simp [hv, jOrEmpty, htr]
  · intro v hv htr
    unfold lookupSubscriptions
    rw [if_neg hcond]
    simp [hv, jOrEmpty, htr]

/-- Witness for C6 (amended): a missing record and a falsy record yield
the empty map; a proper object record is returned as stored. -/
theorem c6_lookup_absent_policy_witness :
    (lookupSubscriptions [] ⟨[], [], []⟩ ⟨['c'], false, []⟩).2.2.1 =
      some (JVal.obj []) ∧
    (lookupSubscriptions [] ⟨[(subsKey ['c'], JVal.num 0)], [], []⟩
      ⟨['c'], false, []⟩).2.2.1 = some (JVal.obj []) ∧
    (lookupSubscriptions [] ⟨[(subsKey ['c'], JVal.obj [(['a'], ⟨1⟩)])], [], []⟩
      ⟨['c'], false, []⟩).2.2.1 = some (JVal.obj [(['a'], ⟨1⟩)]) :=
  ⟨((c6_lookup_absent_policy [] ⟨[], [], []⟩ ⟨['c'], false, []⟩
      (by decide)).1 (by decide)).1,
   ((c6_lookup_absent_policy [] ⟨[(subsKey ['c'], JVal.num 0)], [], []⟩
      ⟨['c'], false, []⟩ (by decide)).2.1 (JVal.num 0) (by decide) (by decide)).1,
   ((c6_lookup_absent_policy [] ⟨[(subsKey ['c'], JVal.obj [(['a'], ⟨1⟩)])], [], []⟩
      ⟨['c'], false, []⟩ (by decide)).2.2 (JVal.obj [(['a'], ⟨1⟩)])
      (by decide) (by decide)).1⟩

/-- Claim C7 (counterexample): streamOfflinePackets on a non-clean client
with an empty backlog ends after zero callback invocations — no packet
callback and no terminal completion signal — refuting "every public
operation delivers a definite completion signal on every path". -/
theorem c7_counterexample :
    (streamOfflinePackets [] Store.empty ⟨['c'], false, []⟩).2.2.1 = [] ∧
    (streamOfflinePackets [] Store.empty ⟨['c'], false, []⟩).2.2.2 = 0 := by
  constructor
  · unfold streamOfflinePackets
    rw [if_neg (by decide)]
    show drain (getList Store.empty (packetsKey ['c'])) = []
    rw [drain_eq_reverse]
    rfl
  · unfold streamOfflinePackets
    rw [if_neg (by decide)]

/-- Claim C7 (amended): storeSubscriptions, lookupSubscriptions,
storeRetained, lookupRetained, storeOfflinePacket and close each deliver
exactly one completion signal on every path; streamOfflinePackets invokes
its callback once per drained packet and always terminates silently,
delivering no terminal completion signal. -/
theorem c7_completion_signals (u : Str) (m : Matcher Str) (st : Store)
    (c : Client) (p : Packet) (pat : Str) :
    (storeSubscriptions u m st c).2.2.2 = 1 ∧
    (lookupSubscriptions m st c).2.2.2 = 1 ∧
    (storeRetained st p).2 = 1 ∧
    (lookupRetained st pat).2.2 = 1 ∧
    (storeOfflinePacket m st p).2 = 1 ∧
    closeOp = 1 ∧
    (streamOfflinePackets m st c).2.2.2 = 0 := by
  refine ⟨?_, ?_, rfl, ?_, rfl, rfl, ?_⟩
  · unfold storeSubscriptions
    split
    · rfl
    · rfl
  · unfold lookupSubscriptions
    split
    · rfl
    · rfl
  · unfold lookupRetained
    split
    · rfl
    · rfl
  · unfold streamOfflinePackets
    split
    · rfl
    · rfl

/-- Claim C1 (counterexample): a qos-0 pattern of the session that is
already in the Matcher for this client survives storeSubscriptions
followed by lookupSubscriptions, refuting "afterwards the Matcher contains
no (pattern, C.id) entry for any pattern in S". -/
theorem c1_counterexample :
    (("a".toList, "c".toList) ∈
      (lookupSubscriptions
        (storeSubscriptions "u".toList [("a".toList, "c".toList)] Store.empty
          ⟨"c".toList, false, [("a".toList, ⟨0⟩)]⟩).1
        (storeSubscriptions "u".toList [("a".toList, "c".toList)] Store.empty
          ⟨"c".toList, false, [("a".toList, ⟨0⟩)]⟩).2.1
        ⟨"c".toList, false, [("a".toList, ⟨0⟩)]⟩).1) ∧
    "a".toList ∈ [("a".toList, (⟨0⟩ : Sub))].map (fun e => e.1) := by
  decide

/-- Claim C1 (amended): for a non-clean session, storeSubscriptions
followed by lookupSubscriptions returns exactly the qos>0 entries of the
session's subscription map, and afterwards the Matcher contains no
(pattern, client-id) entry for any qos>0 pattern of that map (qos-0
patterns already present in the Matcher are untouched). -/
theorem c1_roundtrip (u : Str) (m : Matcher Str) (st : Store) (c : Client)
    (hc : c.clean = false) :
    (lookupSubscriptions (storeSubscriptions u m st c).1
        (storeSubscriptions u m st c).2.1 c).2.2.1 =
      some (JVal.obj (c.subscriptions.filter (fun e => decide (0 < e.2.qos)))) ∧
    ∀ p ∈ (c.subscriptions.filter
        (fun e => decide (0 < e.2.qos))).map (fun e => e.1),
      (p, c.id) ∉ (lookupSubscriptions (storeSubscriptions u m st c).1
        (storeSubscriptions u m st c).2.1 c).1 := by
  have hcond : ¬ (c.clean = true) := by simp [hc]
  have hstore : (storeSubscriptions u m st c).2.1.kv =
      alSet st.kv (subsKey c.id)
        (JVal.obj (c.subscriptions.filter (fun e => decide (0 < e.2.qos)))) := by
    unfold storeSubscriptions
    rw [if_neg hcond]
  have hget : alGet (storeSubscriptions u m st c).2.1.kv (subsKey c.id) =
      some (JVal.obj (c.subscriptions.filter (fun e => decide (0 < e.2.qos)))) := by
    rw [hstore]
    exact alGet_alSet_self _ _ _
  constructor
  · unfold lookupSubscriptions
    rw [if_neg hcond]
    show some (jOrEmpty (alGet (storeSubscriptions u m st c).2.1.kv
      (subsKey c.id))) = _
    rw [hget]
    rfl
  · intro p hp
    have hm2 : (lookupSubscriptions (storeSubscriptions u m st c).1
        (storeSubscriptions u m st c).2.1 c).1 =
        ((c.subscriptions.filter (fun e => decide (0 < e.2.qos))).map
          (fun e => e.1)).foldl (fun acc q => acc.remove q c.id)
          (storeSubscriptions u m st c).1 := by
      unfold lookupSubscriptions
      rw [if_neg hcond]
      show (jkeys (jOrEmpty (alGet (storeSubscriptions u m st c).2.1.kv
        (subsKey c.id)))).foldl (fun acc q => acc.remove q c.id)
        (storeSubscriptions u m st c).1 = _
      rw [hget]
      rfl
    rw [hm2]
    exact not_mem_foldl_remove _ _ p c.id hp

/-- Witness for C1 (amended): a session holding a qos-1 and a qos-0
subscription gets exactly the qos-1 entry back, and the qos-1 pattern is
gone from the Matcher for that client. -/
theorem c1_roundtrip_witness :
    (lookupSubscriptions
      (storeSubscriptions "u".toList [] Store.empty
        ⟨"c".toList, false, [("a".toList, ⟨1⟩), ("b".toList, ⟨0⟩)]⟩).1
      (storeSubscriptions "u".toList [] Store.empty
        ⟨"c".toList, false, [("a".toList, ⟨1⟩), ("b".toList, ⟨0⟩)]⟩).2.1
      ⟨"c".toList, false, [("a".toList, ⟨1⟩), ("b".toList, ⟨0⟩)]⟩).2.2.1 =
      some (JVal.obj [("a".toList, ⟨1⟩)]) ∧
    ("a".toList, "c".toList) ∉
      (lookupSubscriptions
        (storeSubscriptions "u".toList [] Store.empty
          ⟨"c".toList, false, [("a".toList, ⟨1⟩), ("b".toList, ⟨0⟩)]⟩).1
        (storeSubscriptions "u".toList [] Store.empty
          ⟨"c".toList, false, [("a".toList, ⟨1⟩), ("b".toList, ⟨0⟩)]⟩).2.1
        ⟨"c".toList, false, [("a".toList, ⟨1⟩), ("b".toList, ⟨0⟩)]⟩).1 := by
  have h := c1_roundtrip "u".toList [] Store.empty
    ⟨"c".toList, false, [("a".toList, ⟨1⟩), ("b".toList, ⟨0⟩)]⟩ (by decide)
  exact ⟨h.1.trans (by decide), h.2 "a".toList (by decide)⟩

/-- Claim C2 (counterexample): with the Matcher already holding the
covering pattern `#` for this client, storeSubscriptions persists the
qos-1 pattern `a` but adds no (a, client-id) Matcher entry, refuting
"every persisted pattern appears under that client's id in the
Matcher". -/
theorem c2_counterexample :
    (("a".toList, "c".toList) ∉
      (storeSubscriptions "u".toList [("#".toList, "c".toList)] Store.empty
        ⟨"c".toList, false, [("a".toList, ⟨1⟩)]⟩).1) ∧
    alGet (storeSubscriptions "u".toList [("#".toList, "c".toList)]
        Store.empty ⟨"c".toList, false, [("a".toList, ⟨1⟩)]⟩).2.1.kv
      (subsKey "c".toList) = some (JVal.obj [("a".toList, ⟨1⟩)]) := by
  decide

/-- Claim C2 (amended): storeSubscriptions on a non-clean session adds
each qos>0 pattern whose Matcher match does not already include the client
id; immediately after the call every persisted pattern matches to the
client id in the Matcher — via an exact entry or a previously present
covering pattern — though not necessarily as an exact (pattern, client-id)
entry. -/
theorem c2_store_updates_matcher (u : Str) (m : Matcher Str) (st : Store)
    (c : Client) (hc : c.clean = false) :
    alGet (storeSubscriptions u m st c).2.1.kv (subsKey c.id) =
      some (JVal.obj (c.subscriptions.filter (fun e => decide (0 < e.2.qos)))) ∧
    ∀ p ∈ (c.subscriptions.filter
        (fun e => decide (0 < e.2.qos))).map (fun e => e.1),
      c.id ∈ (storeSubscriptions u m st c).1.matchTopic p := by
  have hcond : ¬ (c.clean = true) := by simp [hc]
  constructor
  · have hstore : (storeSubscriptions u m st c).2.1.kv =
        alSet st.kv (subsKey c.id)
          (JVal.obj (c.subscriptions.filter (fun e => decide (0 < e.2.qos)))) := by
      unfold storeSubscriptions
      rw [if_neg hcond]
    rw [hstore]
    exact alGet_alSet_self _ _ _
  · intro p hp
    obtain ⟨e, he, hep⟩ := List.mem_map.mp hp
    have hm1 : (storeSubscriptions u m st c).1 =
        (c.subscriptions.filter (fun e => decide (0 < e.2.qos))).foldl
          (fun acc e => if c.id ∈ acc.matchTopic e.1 then acc
            else acc.add e.1 c.id) m := by
      unfold storeSubscriptions
      rw [if_neg hcond]
    rw [hm1, ← hep]
    exact condAdd_foldl_mem c.id _ m e he

/-- Witness for C2 (amended): storing a fresh qos-1 subscription persists
it and makes the client matchable on its pattern. -/
theorem c2_store_updates_matcher_witness :
    alGet (storeSubscriptions "u".toList [] Store.empty
        ⟨"c".toList, false, [("a".toList, ⟨1⟩)]⟩).2.1.kv
      (subsKey "c".toList) = some (JVal.obj [("a".toList, ⟨1⟩)]) ∧
    "c".toList ∈ (storeSubscriptions "u".toList [] Store.empty
        ⟨"c".toList, false, [("a".toList, ⟨1⟩)]⟩).1.matchTopic "a".toList := by
  have h := c2_store_updates_matcher "u".toList [] Store.empty
    ⟨"c".toList, false, [("a".toList, ⟨1⟩)]⟩ (by decide)
  exact ⟨h.1.trans (by decide), h.2 "a".toList (by decide)⟩

end MoscaRC
